import Mathlib

/-! Verification of the steamParser repository against its specification.

Each definition is a shallow embedding of a function of the repository
source; JavaScript numbers are modelled as rationals, JavaScript
`null`/`undefined` as explicit constructors, fallible operations as
`Option`.  Theorems at the end of the file settle the claims of the spec
against these embeddings.
-/

namespace SteamParser

/-! JavaScript numeric values

`background.js` passes possibly-`null`/`undefined` numbers into its
helpers; JavaScript comparison coerces `null` to `0` and makes every
comparison with `undefined` false.  `JSNum` captures the three cases and
the two comparison forms used by `calculateInvestmentScore`. -/

inductive JSNum
  | num (q : ℚ)
  | null
  | undef
deriving DecidableEq

/-- JavaScript `x < c` for a possibly null/undefined `x` and a number
literal `c` (`null` coerces to `0`, comparisons with `undefined` are
false). -/
def JSNum.ltNum : JSNum → ℚ → Bool
  | .num q, c => decide (q < c)
  | .null, c => decide ((0 : ℚ) < c)
  | .undef, _ => false

/-- JavaScript `x >= c` for a possibly null/undefined `x`. -/
def JSNum.geNum : JSNum → ℚ → Bool
  | .num q, c => decide (c ≤ q)
  | .null, c => decide (c ≤ (0 : ℚ))
  | .undef, _ => false

/-- JavaScript `x !== null`. -/
def JSNum.isNotNull : JSNum → Bool
  | .null => false
  | _ => true

/-- JavaScript truthiness of a string-or-null value (`null`, `undefined`
and the empty string are falsy). -/
def jsTruthyStr : Option String → Bool
  | none => false
  | some s => s ≠ ""

/-! Model of `getWearName` from `background.js` (lines 45–51) -/

/-- Function `getWearName` from `src/extention/background.js`: maps a float value
to its wear name through a chain of strict `<` comparisons. -/
def getWearName (floatValue : ℚ) : String :=
  if floatValue < 0.07 then "Factory New"
  else if floatValue < 0.15 then "Minimal Wear"
  else if floatValue < 0.38 then "Field-Tested"
  else if floatValue < 0.45 then "Well-Worn"
  else "Battle-Scarred"

/-! Model of `calculateInvestmentScore` from `background.js` (lines 268–319) -/

/-- Function `calculateInvestmentScore` from `src/extention/background.js`.
Starts from a base score of 5, adds rarity / float / Doppler-phase /
fade / weapon-type bonuses, and clamps the result with
`Math.min(Math.max(score, 1), 10)`.  `paintIndex` is accepted but unused
by the source function. -/
def calculateInvestmentScore (floatValue : JSNum) (rarity : JSNum)
    (paintIndex : JSNum) (dopplerPhase : Option String)
    (fadePercentage : JSNum) (weaponType : Option String) : ℚ :=
  let score : ℚ := 5
  -- Rarity bonus
  let score := if rarity.geNum 6 then score + 3
    else if rarity.geNum 5 then score + 2
    else if rarity.geNum 4 then score + 1
    else score
  -- Float bonus
  let score := if floatValue.ltNum 0.001 then score + 3
    else if floatValue.ltNum 0.01 then score + 2
    else if floatValue.ltNum 0.07 then score + 1
    else score
  -- Doppler phase bonus
  let score := if jsTruthyStr dopplerPhase then
      match dopplerPhase with
      | some "Ruby" | some "Sapphire" | some "Black Pearl" | some "Emerald" => score + 4
      | some "Phase 2" => score + 2
      | some "Phase 4" => score + 1
      | some "Phase 1" | some "Phase 3" => score + 0.5
      | _ => score
    else score
  -- Fade percentage bonus
  let score := if fadePercentage.isNotNull then
      if fadePercentage.geNum 95 then score + 3
      else if fadePercentage.geNum 90 then score + 2
      else if fadePercentage.geNum 80 then score + 1
      else score
    else score
  -- Weapon type bonus for popular knives
  let score := if jsTruthyStr weaponType then
      match weaponType with
      | some w => if w ∈ ["Karambit", "M9 Bayonet", "Butterfly Knife"] then score + 1 else score
      | none => score
    else score
  min (max score 1) 10

/-! Model of `filterItems` from `content.js` (lines 100–114)

The DOM loop extracts the float value of each listing (absent when the
listing has no `.cs2-float-value` element) and shows or hides the row;
only the extracted value and the decision are modelled. -/

/-- Visibility decision of `filterItems` in `src/extention/content.js`
for one listing: with a float value `f`, visible iff
`f >= minFloat && f <= maxFloat`; without one, kept visible. -/
def filterItemVisible (minFloat maxFloat : ℚ) (floatVal : Option ℚ) : Bool :=
  match floatVal with
  | some floatValue => decide (minFloat ≤ floatValue) && decide (floatValue ≤ maxFloat)
  | none => true

/-- Visibility decision of `FloatSorter.filterItems` in
`src/extention/floatSorter.js` for one listing: `shouldShow` starts
true, is cleared when a set `minFloatValue` exceeds the float value or a
set `maxFloatValue` is exceeded by it; a listing without a float value
is shown by default. -/
def floatSorterShouldShow (minFloatValue maxFloatValue : Option ℚ)
    (floatVal : Option ℚ) : Bool :=
  match floatVal with
  | none => true
  | some floatValue =>
    let shouldShow := true
    let shouldShow := match minFloatValue with
      | some minF => if floatValue < minF then false else shouldShow
      | none => shouldShow
    let shouldShow := match maxFloatValue with
      | some maxF => if maxF < floatValue then false else shouldShow
      | none => shouldShow
    shouldShow

/-! Proxy leasability — `part_010` migration SQL

Timestamps are modelled as integers, `blocked_until TIMESTAMP NULL` as
`Option ℤ`. -/

/-- A row of the `proxies` table, restricted to the columns the
`blocked_until` migration (src/unnamed/part_010) mentions. -/
structure Proxy where
  is_active : Bool
  blocked_until : Option ℤ
deriving DecidableEq

/-- Predicate of the partial index `idx_proxies_active_not_blocked`
(src/unnamed/part_010): `is_active = true AND (blocked_until IS NULL OR
blocked_until < NOW())` — the characterisation the code gives of an active,
non-blocked (leasable) proxy at time `now`. -/
def leasableIndexPred (p : Proxy) (now : ℤ) : Bool :=
  p.is_active && (match p.blocked_until with
    | none => true
    | some b => decide (b < now))

/-- Predicate of the partial index `idx_proxies_blocked_until`
(src/unnamed/part_010): `blocked_until IS NOT NULL AND blocked_until >=
NOW()` — the characterisation the code gives of a currently blocked proxy. -/
def blockedIndexPred (p : Proxy) (now : ℤ) : Bool :=
  match p.blocked_until with
  | none => false
  | some b => decide (now ≤ b)

/-- Leasability as the words of the spec state it (I-P1 / P4):
`is_active ∧ (blocked_until is null ∨ blocked_until ≤ t)`.  Declared
only to be compared with `leasableIndexPred`, the predicate the source
defines. -/
def leasableSpecPred (p : Proxy) (t : ℤ) : Bool :=
  p.is_active && (match p.blocked_until with
    | none => true
    | some b => decide (b ≤ t))

/-! Model of `checkPriceAlerts` from `background.js` (lines 747–786) -/

/-- One price alert as stored under `priceAlerts` in
`chrome.storage.local`. -/
structure Alert where
  itemName : String
  alertType : String
  targetPrice : ℚ
  triggered : Bool
deriving DecidableEq

/-- The alert condition computed inside `checkPriceAlerts`:
`shouldAlert` is set for a `below` alert when `currentPrice <
targetPrice` and for an `above` alert when `currentPrice >
targetPrice`. -/
def alertShouldFire (alert : Alert) (currentPrice : ℚ) : Bool :=
  (alert.alertType == "below" && decide (currentPrice < alert.targetPrice)) ||
  (alert.alertType == "above" && decide (alert.targetPrice < currentPrice))

/-- Function `checkPriceAlerts` from `src/extention/background.js`: iterates over
the stored alerts; for every alert on `itemName` whose condition holds
it creates a Chrome notification and marks the alert `triggered`.
Returns the updated alert store and the ids of the alerts for which a
notification was created.  Note that the loop never reads the
`triggered` flag it writes. -/
def checkPriceAlerts (alerts : List (String × Alert)) (itemName : String)
    (currentPrice : ℚ) : List (String × Alert) × List String :=
  alerts.foldl
    (fun acc entry =>
      if entry.2.itemName == itemName && alertShouldFire entry.2 currentPrice then
        (acc.1 ++ [(entry.1, { entry.2 with triggered := true })], acc.2 ++ [entry.1])
      else (acc.1 ++ [(entry.1, entry.2)], acc.2))
    ([], [])

/-! Retry on upstream 5xx in `background.js`
(`attemptFetch`, lines 534–582; `attemptBatchFetch`, lines 382–523,
identical retry logic)

The HTTP responses are modelled by their status codes: `status i` is the
status of attempt `i`.  The recursion mirrors the source: a status in
`[500, 600)` retries after `1000 * 2 ^ (retryCount - 1)` ms (with
`retryCount` already incremented) while `retryCount < MAX_RETRIES`, and
throws once the cap is reached; a non-5xx response either returns the
parsed data (`response.ok`) or throws immediately. -/

/-- Constant `MAX_RETRIES` from `src/extention/background.js`. -/
def MAX_RETRIES : ℕ := 3

/-- Result of the fetch loop: data returned from attempt `attempt`, an
immediate non-ok non-5xx error, or the throw after `MAX_RETRIES`
retries on 5xx. -/
inductive FetchOutcome
  | ok (attempt : ℕ)
  | apiError (status : ℕ) (attempt : ℕ)
  | exhausted
deriving DecidableEq

/-- Check `response.status >= 500 && response.status < 600`. -/
def is5xx (status : ℕ) : Bool := decide (500 ≤ status) && decide (status < 600)

/-- Check `response.ok`: status in `[200, 300)`. -/
def responseOk (status : ℕ) : Bool := decide (200 ≤ status) && decide (status < 300)

/-- Function `attemptFetch` from `fetchFloatDataSingle` in
`src/extention/background.js` (the batch variant `attemptBatchFetch`
carries the same status check, cap and backoff).  Returns the outcome
together with the list of backoff delays (in ms) slept between
attempts. -/
def attemptFetch (status : ℕ → ℕ) (retryCount : ℕ) : FetchOutcome × List ℕ :=
  let s := status retryCount
  if is5xx s then
    if h : retryCount < MAX_RETRIES then
      let backoffDelay := 1000 * 2 ^ ((retryCount + 1) - 1)
      let rest := attemptFetch status (retryCount + 1)
      (rest.1, backoffDelay :: rest.2)
    else (.exhausted, [])
  else if responseOk s then (.ok retryCount, [])
  else (.apiError s retryCount, [])
termination_by MAX_RETRIES - retryCount
decreasing_by omega

/-! Batch queue of `background.js` (lines 12–14, 331–376)

`addToBatchQueue` and `processBatch` are synchronous up to the `fetch`
call, so the queue discipline is modelled as a state machine whose
events are an enqueue and a firing of the `BATCH_DELAY` timer; each
emitted value is the list of inspect links of one bulk request. -/

/-- Constant `BATCH_SIZE` from `src/extention/background.js`. -/
def BATCH_SIZE : ℕ := 10

/-- Constant `BATCH_DELAY` (ms) from `src/extention/background.js`: the timer
armed by `addToBatchQueue` when the queue is below `BATCH_SIZE`. -/
def BATCH_DELAY : ℕ := 100

/-- The module state of `background.js`: the `batchQueue` array plus
whether `batchTimer` is armed. -/
structure BatchState (Item : Type) where
  batchQueue : List Item
  timerSet : Bool

/-- Function `processBatch` from `src/extention/background.js`: returns on an
empty queue, otherwise clears the timer, splices the first `BATCH_SIZE`
items off the queue and issues one bulk request with them. -/
def processBatch {Item : Type} (s : BatchState Item) :
    BatchState Item × Option (List Item) :=
  if s.batchQueue.isEmpty then (s, none)
  else ({ batchQueue := s.batchQueue.drop BATCH_SIZE, timerSet := false },
        some (s.batchQueue.take BATCH_SIZE))

/-- Function `addToBatchQueue` from `src/extention/background.js`: pushes the
link, clears any pending timer, then processes immediately when the
queue has reached `BATCH_SIZE` and otherwise re-arms the
`BATCH_DELAY` timer. -/
def addToBatchQueue {Item : Type} (s : BatchState Item) (link : Item) :
    BatchState Item × Option (List Item) :=
  let queued := s.batchQueue ++ [link]
  if BATCH_SIZE ≤ queued.length then
    processBatch { batchQueue := queued, timerSet := false }
  else ({ batchQueue := queued, timerSet := true }, none)

/-- The two events that drive the batch queue. -/
inductive BatchEvent (Item : Type)
  | add (link : Item)
  | timerFire

/-- One event step: an enqueue runs `addToBatchQueue`; a timer firing
runs `processBatch` when the timer is armed. -/
def batchStep {Item : Type} (s : BatchState Item) :
    BatchEvent Item → BatchState Item × Option (List Item)
  | .add link => addToBatchQueue s link
  | .timerFire => if s.timerSet then processBatch s else (s, none)

/-- Runs a sequence of events from the initial state (empty queue, no
timer), collecting every bulk request issued. -/
def batchRun {Item : Type} (events : List (BatchEvent Item)) :
    BatchState Item × List (List Item) :=
  events.foldl
    (fun acc e =>
      let r := batchStep acc.1 e
      (r.1, acc.2 ++ r.2.toList))
    (⟨[], false⟩, [])

/-! Migration runner — `part_003` / `part_004` shell loops

Both scripts run the same loop over `ls -1 "$MIGRATIONS_DIR"/*.sql |
sort`: skip a file whose name is already in `schema_migrations`,
otherwise run it through `psql` and, only on success, `INSERT …
ON CONFLICT (migration_name) DO NOTHING` its name.  Migration names are
modelled by any linearly ordered type (`String` with its lexicographic
order in the scripts); `psql -f` is an opaque `applySql` collaborator
returning the new database state or `none` on failure. -/

/-- Database plus the `schema_migrations` rows (migration names in
insertion order; the column is `UNIQUE`). -/
structure MigState (Name : Type) (DB : Type) where
  db : DB
  schema_migrations : List Name
deriving DecidableEq

/-- Statement `INSERT INTO schema_migrations (migration_name) VALUES (…) ON
CONFLICT (migration_name) DO NOTHING`. -/
def insertMigrationRow {Name : Type} [DecidableEq Name]
    (rows : List Name) (name : Name) : List Name :=
  if name ∈ rows then rows else rows ++ [name]

/-- Command `ls -1 "$MIGRATIONS_DIR"/*.sql | sort`. -/
def sortedMigrationFiles {Name : Type} [LinearOrder Name]
    (files : List Name) : List Name :=
  List.insertionSort (· ≤ ·) files

/-- The `for migration_file in …` loop body of part_003 lines 52–78 and
part_004 lines 43–67, iterated over the file list: an already-recorded
name is skipped; otherwise `psql -f` is attempted, and on success the
name is recorded.  The second component is the trace of names for which
an application was attempted, in loop order. -/
def migrationLoop {Name DB : Type} [DecidableEq Name]
    (applySql : Name → DB → Option DB) :
    MigState Name DB → List Name → MigState Name DB × List Name
  | s, [] => (s, [])
  | s, name :: rest =>
    if name ∈ s.schema_migrations then migrationLoop applySql s rest
    else
      let s2 : MigState Name DB :=
        match applySql name s.db with
        | some db2 => ⟨db2, insertMigrationRow s.schema_migrations name⟩
        | none => s
      let r := migrationLoop applySql s2 rest
      (r.1, name :: r.2)

/-- One run of the migration script: the loop over the sorted file
list. -/
def runMigrations {Name DB : Type} [LinearOrder Name]
    (applySql : Name → DB → Option DB) (files : List Name)
    (s : MigState Name DB) : MigState Name DB :=
  (migrationLoop applySql s (sortedMigrationFiles files)).1

/-! Filters migration `001_change_filters_to_jsonb.sql`

The `monitoring_tasks` table is modelled by the state the migration
touches: the type and NOT NULL flag of the `filters_json` column, its
per-row values, and the index list.  The `filters_json::JSONB` cast is
the opaque collaborator `parse`; the whole DO block is one statement,
so any error (an uncastable value, or `SET NOT NULL` over a NULL row)
aborts it with no change, modelled by `Option`. -/

/-- The value the filters column holds in one row: text (before the migration)
or binary JSON (after), either possibly NULL. -/
inductive FilterVal (J : Type)
  | txt (value : Option String)
  | jsb (value : Option J)
deriving DecidableEq

/-- The `monitoring_tasks` table, restricted to what the migration
reads and writes. -/
structure TasksTable (J : Type) where
  filtersIsJsonb : Bool
  filtersNotNull : Bool
  rows : List (FilterVal J)
  indexes : List String
deriving DecidableEq

/-- Cast of one row by `UPDATE monitoring_tasks SET filters_jsonb =
filters_json::JSONB WHERE filters_json IS NOT NULL`: a NULL value stays
NULL, a non-null text value is cast (an invalid document aborts the
block). -/
def castRow {J : Type} (parse : String → Option J) :
    FilterVal J → Option (FilterVal J)
  | .txt none => some (.jsb none)
  | .txt (some s) => (parse s).map (fun j => .jsb (some j))
  | .jsb v => some (.jsb v)

/-- The row-wise cast over the whole table. -/
def castRows {J : Type} (parse : String → Option J) :
    List (FilterVal J) → Option (List (FilterVal J))
  | [] => some []
  | v :: rest =>
    match castRow parse v with
    | none => none
    | some w => (castRows parse rest).map (w :: ·)

/-- Statement `CREATE INDEX idx_monitoring_tasks_filters_gin … USING GIN
(filters_json)`. -/
def ginIndexName : String := "idx_monitoring_tasks_filters_gin"

/-- Statement `CREATE INDEX … idx_monitoring_tasks_max_price … USING BTREE
((filters_json ->> max_price))`. -/
def maxPriceIndexName : String := "idx_monitoring_tasks_max_price"

/-- Statement `CREATE INDEX … idx_monitoring_tasks_item_type … USING BTREE
((filters_json -> pattern_list ->> item_type))`. -/
def itemTypeIndexName : String := "idx_monitoring_tasks_item_type"

/-- Check performed by `ALTER COLUMN filters_json SET NOT
NULL`. -/
def rowNotNull {J : Type} : FilterVal J → Bool
  | .txt none => false
  | .jsb none => false
  | _ => true

/-- The DO block of `src/migrations/001_change_filters_to_jsonb.sql`,
run on an existing `monitoring_tasks` table: when `filters_json` is not
yet JSONB it adds a JSONB column, copies the cast values over, drops
and renames, sets NOT NULL, and creates the GIN index plus the two
btree expression indexes; when the column is already JSONB it does
nothing. -/
def migration001 {J : Type} (parse : String → Option J)
    (t : TasksTable J) : Option (TasksTable J) :=
  if t.filtersIsJsonb then some t
  else
    match castRows parse t.rows with
    | none => none
    | some newRows =>
      if newRows.all rowNotNull then
        some { filtersIsJsonb := true, filtersNotNull := true,
               rows := newRows,
               indexes := t.indexes ++
                 [ginIndexName, maxPriceIndexName, itemTypeIndexName] }
      else none

/-- The guard `IF EXISTS (… information_schema.tables …)` around the DO
block: a database without the `monitoring_tasks` table is left
untouched. -/
def migration001OnDatabase {J : Type} (parse : String → Option J) :
    Option (TasksTable J) → Option (Option (TasksTable J))
  | none => some none
  | some t => (migration001 parse t).map some

end SteamParser

namespace SteamParser

/-- C9: for every numeric float value `f`, `getWearName` returns exactly
one of the five wear names, determined by the half-open intervals
`f < 0.07`, `0.07 ≤ f < 0.15`, `0.15 ≤ f < 0.38`, `0.38 ≤ f < 0.45` and
`f ≥ 0.45`; the function is total and deterministic. -/
theorem getWearName_partition (f : ℚ) :
    (getWearName f = "Factory New" ↔ f < 0.07) ∧
    (getWearName f = "Minimal Wear" ↔ 0.07 ≤ f ∧ f < 0.15) ∧
    (getWearName f = "Field-Tested" ↔ 0.15 ≤ f ∧ f < 0.38) ∧
    (getWearName f = "Well-Worn" ↔ 0.38 ≤ f ∧ f < 0.45) ∧
    (getWearName f = "Battle-Scarred" ↔ 0.45 ≤ f) ∧
    (getWearName f = "Factory New" ∨ getWearName f = "Minimal Wear" ∨
      getWearName f = "Field-Tested" ∨ getWearName f = "Well-Worn" ∨
      getWearName f = "Battle-Scarred") := by
  unfold getWearName
  split_ifs with h1 h2 h3 h4 <;>
    refine ⟨?_, ?_, ?_, ?_, ?_, ?_⟩ <;>
    simp_all <;>
    (try constructor) <;> intros <;> linarith

/-- C8: for every combination of inputs (including null/undefined
values), `calculateInvestmentScore` returns a score `s` with
`1 ≤ s ≤ 10`. -/
theorem calculateInvestmentScore_bounded (floatValue rarity paintIndex : JSNum)
    (dopplerPhase : Option String) (fadePercentage : JSNum)
    (weaponType : Option String) :
    1 ≤ calculateInvestmentScore floatValue rarity paintIndex dopplerPhase
        fadePercentage weaponType ∧
      calculateInvestmentScore floatValue rarity paintIndex dopplerPhase
        fadePercentage weaponType ≤ 10 := by
  unfold calculateInvestmentScore
  exact ⟨le_min (le_max_right _ _) (by norm_num), min_le_right _ _⟩

/-- C7: a listing with parsed float value `f` is kept visible iff every
set bound holds inclusively (`min ≤ f` and `f ≤ max`), and a listing
with no float value is always kept visible — for both the `content.js`
filter (where both bounds are always set) and the `floatSorter.js`
filter (where each bound is optional). -/
theorem filterItems_inclusive_bounds (minF maxF : ℚ)
    (minFo maxFo : Option ℚ) (fv : Option ℚ) :
    (filterItemVisible minF maxF fv = true ↔
      (fv = none ∨ ∃ v, fv = some v ∧ minF ≤ v ∧ v ≤ maxF)) ∧
    (floatSorterShouldShow minFo maxFo fv = true ↔
      (fv = none ∨ ∃ v, fv = some v ∧ (∀ m, minFo = some m → m ≤ v) ∧
        (∀ M, maxFo = some M → v ≤ M))) := by
  constructor
  · cases fv with
    | none => simp [filterItemVisible]
    | some v => simp [filterItemVisible]
  · cases fv with
    | none => simp [floatSorterShouldShow]
    | some v =>
      cases minFo with
      | none =>
        cases maxFo with
        | none => simp [floatSorterShouldShow]
        | some M =>
          simp only [floatSorterShouldShow, Option.some.injEq]
          constructor
          · intro h
            refine Or.inr ⟨v, rfl, by simp, ?_⟩
            intro M2 hM2
            subst hM2
            by_contra hlt
            simp [not_le] at hlt
            simp [if_pos hlt] at h
          · rintro (h | ⟨w, hw, _, hmax⟩)
            · exact absurd h (by simp)
            · cases hw
              have := hmax M rfl
              simp [if_neg (not_lt.mpr this)]
      | some m =>
        cases maxFo with
        | none =>
          simp only [floatSorterShouldShow, Option.some.injEq]
          constructor
          · intro h
            refine Or.inr ⟨v, rfl, ?_, by simp⟩
            intro m2 hm2
            subst hm2
            by_contra hlt
            simp [not_le] at hlt
            simp [if_pos hlt] at h
          · rintro (h | ⟨w, hw, hmin, _⟩)
            · exact absurd h (by simp)
            · cases hw
              have := hmin m rfl
              simp [if_neg (not_lt.mpr this)]
        | some M =>
          simp only [floatSorterShouldShow, Option.some.injEq]
          constructor
          · intro h
            by_cases h1 : v < m
            · by_cases h2 : M < v
              · simp [if_pos h1, if_pos h2] at h
              · simp [if_pos h1, if_neg h2] at h
            · by_cases h2 : M < v
              · simp [if_pos h2] at h
              · refine Or.inr ⟨v, rfl, ?_, ?_⟩
                · intro m2 hm2; cases hm2; exact not_lt.mp h1
                · intro M2 hM2; cases hM2; exact not_lt.mp h2
          · rintro (h | ⟨w, hw, hmin, hmax⟩)
            · exact absurd h (by simp)
            · cases hw
              have h1 := hmin m rfl
              have h2 := hmax M rfl
              simp [if_neg (not_lt.mpr h1), if_neg (not_lt.mpr h2)]

/-- C7 witness: the `content.js` filter keeps a listing without float
data and the `floatSorter.js` filter keeps an in-range listing. -/
theorem filterItems_inclusive_bounds_witness :
    filterItemVisible 0 1 none = true ∧
      floatSorterShouldShow (some 0) (some 1) (some (1/2)) = true := by
  constructor
  · exact (filterItems_inclusive_bounds 0 1 none none none).1.mpr (Or.inl rfl)
  · exact (filterItems_inclusive_bounds 0 1 (some 0) (some 1) (some (1/2))).2.mpr
      (Or.inr ⟨1/2, rfl, by rintro m ⟨rfl⟩; norm_num, by rintro M ⟨rfl⟩; norm_num⟩)

/-- C3 counterexample: the claim says a proxy whose `blocked_until`
equals the current instant is leasable, but the leasable-index
predicate of the code (`blocked_until < NOW()`, src/unnamed/part_010) rejects it:
at `blocked_until = some 0` and `now = 0` the spec predicate holds
while the code predicate does not, and the code still classifies the proxy as
blocked. -/
theorem leasable_boundary_counterexample :
    leasableIndexPred ⟨true, some 0⟩ 0 = false ∧
      leasableSpecPred ⟨true, some 0⟩ 0 = true ∧
      blockedIndexPred ⟨true, some 0⟩ 0 = true := by decide

/-- C3 (amended): a proxy is leasable iff `is_active` holds and
(`blocked_until` is null or `blocked_until < t`, strictly); moreover for
an active proxy the leasable-index predicate and the blocked-index
predicate of src/unnamed/part_010 are exact complements, so a proxy
whose `blocked_until` equals the current instant is still blocked. -/
theorem leasableIndexPred_iff (p : Proxy) (t : ℤ) :
    (leasableIndexPred p t = true ↔
      (p.is_active = true ∧ (p.blocked_until = none ∨
        ∃ b, p.blocked_until = some b ∧ b < t))) ∧
    (p.is_active = true →
      (leasableIndexPred p t = true ↔ blockedIndexPred p t = false)) := by
  obtain ⟨a, bu⟩ := p
  cases bu with
  | none => simp [leasableIndexPred, blockedIndexPred]
  | some b =>
    constructor
    · simp [leasableIndexPred]
    · intro ha
      simp only [ha] at *
      simp [leasableIndexPred, blockedIndexPred, ha, not_le]

/-- C3 witness: an active never-blocked proxy is leasable and not in
the blocked-index predicate. -/
theorem leasableIndexPred_iff_witness :
    leasableIndexPred ⟨true, none⟩ 0 = true ↔
      blockedIndexPred ⟨true, none⟩ 0 = false :=
  (leasableIndexPred_iff ⟨true, none⟩ 0).2 rfl

/-- C1: delivering the same qualifying observation twice invokes the
notifier twice, not at most once — `checkPriceAlerts` marks the alert
`triggered` on the first delivery but never consults that flag, so the
second, identical observation notifies again.  Concretely: one `below`
alert on "AK-47" with target 100, the observation ("AK-47", price 50)
delivered twice; each delivery emits a notification for alert id "a1",
even though after the first the stored alert is already `triggered`. -/
theorem checkPriceAlerts_notifies_twice_on_replay :
    (checkPriceAlerts [("a1", ⟨"AK-47", "below", 100, false⟩)] "AK-47" 50).2
        = ["a1"] ∧
      (checkPriceAlerts [("a1", ⟨"AK-47", "below", 100, false⟩)] "AK-47" 50).1
        = [("a1", ⟨"AK-47", "below", 100, true⟩)] ∧
      (checkPriceAlerts [("a1", ⟨"AK-47", "below", 100, true⟩)] "AK-47" 50).2
        = ["a1"] := by decide

/-- C5: if every attempt returns a 5xx status, the fetch retries exactly
`MAX_RETRIES = 3` times with delays 1000 ms, 2000 ms and 4000 ms between
attempts and then fails with no further retry; if the first non-5xx
response arrives on attempt `k ≤ 3` and is a success, that result is
returned, with the delays slept so far being the prefix
`1000·2^0, …, 1000·2^(k-1)` of the schedule. -/
theorem attemptFetch_retry_schedule (status : ℕ → ℕ) :
    ((∀ i, i ≤ MAX_RETRIES → is5xx (status i) = true) →
      attemptFetch status 0 = (.exhausted, [1000, 2000, 4000])) ∧
    (∀ k, k ≤ MAX_RETRIES → (∀ i, i < k → is5xx (status i) = true) →
      is5xx (status k) = false → responseOk (status k) = true →
      attemptFetch status 0 = (.ok k, (List.range k).map fun i => 1000 * 2 ^ i)) := by
  constructor
  · intro hall
    have h0 := hall 0 (by norm_num [MAX_RETRIES])
    have h1 := hall 1 (by norm_num [MAX_RETRIES])
    have h2 := hall 2 (by norm_num [MAX_RETRIES])
    have h3 := hall 3 (by norm_num [MAX_RETRIES])
    rw [attemptFetch, attemptFetch, attemptFetch, attemptFetch]
    simp [h0, h1, h2, h3, MAX_RETRIES]
  · intro k hk hbefore h5 hok
    have hk3 : k ≤ 3 := hk
    clear hk
    interval_cases k
    · rw [attemptFetch]
      simp [h5, hok]
    · have h0 := hbefore 0 (by norm_num)
      rw [attemptFetch, attemptFetch]
      simp [h0, h5, hok, MAX_RETRIES, List.range_succ]
    · have h0 := hbefore 0 (by norm_num)
      have h1 := hbefore 1 (by norm_num)
      rw [attemptFetch, attemptFetch, attemptFetch]
      simp [h0, h1, h5, hok, MAX_RETRIES, List.range_succ]
    · have h0 := hbefore 0 (by norm_num)
      have h1 := hbefore 1 (by norm_num)
      have h2 := hbefore 2 (by norm_num)
      rw [attemptFetch, attemptFetch, attemptFetch, attemptFetch]
      simp [h0, h1, h2, h5, hok, MAX_RETRIES, List.range_succ]

/-- C5 witness: with every attempt answering 503 the loop fails after
the full 1 s / 2 s / 4 s schedule. -/
theorem attemptFetch_retry_schedule_witness :
    attemptFetch (fun _ => 503) 0 = (.exhausted, [1000, 2000, 4000]) :=
  (attemptFetch_retry_schedule (fun _ => 503)).1 (fun _ _ => rfl)

/-- Helper for C10: a single event keeps the queue below `BATCH_SIZE`
and any request it emits carries at most `BATCH_SIZE` items. -/
theorem batchStep_queue_bound {Item : Type} (s : BatchState Item)
    (e : BatchEvent Item) (h : s.batchQueue.length < BATCH_SIZE) :
    (batchStep s e).1.batchQueue.length < BATCH_SIZE ∧
      (∀ r, (batchStep s e).2 = some r → r.length ≤ BATCH_SIZE) := by
  cases e with
  | add link =>
    simp only [batchStep, addToBatchQueue]
    by_cases hq : BATCH_SIZE ≤ (s.batchQueue ++ [link]).length
    · have hne : (s.batchQueue ++ [link]).isEmpty = false := by
        simp
      simp only [if_pos hq, processBatch, hne, Bool.false_eq_true, if_false]
      constructor
      · simp only [List.length_drop]
        simp [BATCH_SIZE] at *
        omega
      · intro r hr
        injection hr with hr
        subst hr
        simp only [List.length_take]
        omega
    · simp only [if_neg hq]
      constructor
      · simp at hq ⊢
        omega
      · intro r hr
        simp at hr
  | timerFire =>
    simp only [batchStep]
    by_cases ht : s.timerSet
    · simp only [if_pos ht, processBatch]
      by_cases he : s.batchQueue.isEmpty
      · simp [he, h]
      · simp only [he, Bool.false_eq_true, if_false]
        constructor
        · simp only [List.length_drop]
          omega
        · intro r hr
          injection hr with hr
          subst hr
          simp only [List.length_take]
          omega
    · simp only [if_neg ht]
      exact ⟨h, fun r hr => by simp at hr⟩

/-- Helper for C10: over any run that starts with a queue below
`BATCH_SIZE`, every emitted request is at most `BATCH_SIZE` long. -/
theorem batchRun_fold_bound {Item : Type} (events : List (BatchEvent Item)) :
    ∀ (s : BatchState Item) (acc : List (List Item)),
      s.batchQueue.length < BATCH_SIZE →
      (∀ r ∈ acc, r.length ≤ BATCH_SIZE) →
      ∀ r ∈ (events.foldl
          (fun acc e =>
            let st := batchStep acc.1 e
            (st.1, acc.2 ++ st.2.toList)) (s, acc)).2,
        r.length ≤ BATCH_SIZE := by
  induction events with
  | nil =>
    intro s acc _ hacc r hr
    simpa using hacc r hr
  | cons e rest ih =>
    intro s acc hs hacc r hr
    refine ih _ _ (batchStep_queue_bound s e hs).1 ?_ r hr
    intro r2 hr2
    rcases List.mem_append.mp hr2 with h2 | h2
    · exact hacc r2 h2
    · cases hopt : (batchStep s e).2 with
      | none => simp [hopt] at h2
      | some req =>
        rw [hopt] at h2
        simp at h2
        subst h2
        exact (batchStep_queue_bound s e hs).2 r2 hopt

/-- C10: every bulk request issued over any event sequence carries at
most `BATCH_SIZE = 10` inspect links; `addToBatchQueue` flushes exactly
when the queue reaches `BATCH_SIZE` after the push (otherwise it arms
the delay timer and emits nothing); and `processBatch` removes exactly
the first `BATCH_SIZE` items it sends. -/
theorem batch_requests_capped {Item : Type} (events : List (BatchEvent Item)) :
    (∀ r ∈ (batchRun events).2, r.length ≤ BATCH_SIZE) ∧
    (∀ (s : BatchState Item) (link : Item),
      ((addToBatchQueue s link).2 ≠ none ↔
        BATCH_SIZE ≤ s.batchQueue.length + 1)) ∧
    (∀ s : BatchState Item, s.batchQueue ≠ [] →
      (processBatch s).2 = some (s.batchQueue.take BATCH_SIZE) ∧
      (processBatch s).1.batchQueue = s.batchQueue.drop BATCH_SIZE) := by
  refine ⟨?_, ?_, ?_⟩
  · exact batchRun_fold_bound events ⟨[], false⟩ [] (by simp [BATCH_SIZE]) (by simp)
  · intro s link
    simp only [addToBatchQueue]
    by_cases hq : BATCH_SIZE ≤ (s.batchQueue ++ [link]).length
    · have hne : (s.batchQueue ++ [link]).isEmpty = false := by simp
      simp only [if_pos hq, processBatch, hne, Bool.false_eq_true, if_false]
      simp at hq ⊢
      omega
    · simp only [if_neg hq]
      simp at hq ⊢
      omega
  · intro s hne
    have he : s.batchQueue.isEmpty = false := by
      simpa [List.isEmpty_iff] using hne
    simp [processBatch, he]

/-- C10 witness: ten consecutive enqueues produce one bulk request of
exactly ten links, and `processBatch` on a one-element queue sends that
element. -/
theorem batch_requests_capped_witness :
    ([0, 1, 2, 3, 4, 5, 6, 7, 8, 9] : List ℕ).length ≤ BATCH_SIZE ∧
      (processBatch (⟨[(1 : ℕ)], true⟩ : BatchState ℕ)).2 = some [1] := by
  constructor
  · exact (batch_requests_capped
      [BatchEvent.add 0, .add 1, .add 2, .add 3, .add 4, .add 5, .add 6,
        .add 7, .add 8, .add 9]).1 _ (by decide)
  · exact ((batch_requests_capped ([] : List (BatchEvent ℕ))).2.2
      ⟨[1], true⟩ (by simp)).1

/-- Helper: membership in `schema_migrations` after the `ON CONFLICT DO
NOTHING` insert. -/
theorem mem_insertMigrationRow {Name : Type} [DecidableEq Name]
    (rows : List Name) (n m : Name) :
    m ∈ insertMigrationRow rows n ↔ m ∈ rows ∨ m = n := by
  unfold insertMigrationRow
  split_ifs with h
  · constructor
    · exact Or.inl
    · rintro (hm | rfl)
      · exact hm
      · exact h
  · simp

/-- Helper: a file whose name is already recorded is skipped without
touching the state. -/
theorem migrationLoop_skip {Name DB : Type} [DecidableEq Name]
    (applySql : Name → DB → Option DB) (s : MigState Name DB)
    (n : Name) (rest : List Name) (h : n ∈ s.schema_migrations) :
    migrationLoop applySql s (n :: rest) = migrationLoop applySql s rest := by
  simp [migrationLoop, h]

/-- Helper: when every file is already recorded the loop is the
identity and attempts nothing. -/
theorem migrationLoop_all_recorded {Name DB : Type} [DecidableEq Name]
    (applySql : Name → DB → Option DB) (l : List Name) :
    ∀ s : MigState Name DB, (∀ n ∈ l, n ∈ s.schema_migrations) →
      migrationLoop applySql s l = (s, []) := by
  induction l with
  | nil => intro s _; rfl
  | cons n rest ih =>
    intro s hall
    rw [migrationLoop_skip applySql s n rest (hall n (by simp))]
    exact ih s (fun m hm => hall m (by simp [hm]))

/-- Helper: processing one file changes the recorded set only at the
name of that file. -/
theorem mem_applied_after_step {Name DB : Type} [DecidableEq Name]
    (applySql : Name → DB → Option DB) (s : MigState Name DB)
    (n m : Name) (hne : m ≠ n) :
    (m ∈ (match applySql n s.db with
      | some db2 => (⟨db2, insertMigrationRow s.schema_migrations n⟩ :
          MigState Name DB)
      | none => s).schema_migrations ↔ m ∈ s.schema_migrations) := by
  cases applySql n s.db with
  | none => simp
  | some db2 => simp [mem_insertMigrationRow, hne]

/-- Helper: the trace of attempted applications is exactly the
not-yet-recorded files in list order (for a duplicate-free file
list). -/
theorem migrationLoop_trace {Name DB : Type} [DecidableEq Name]
    (applySql : Name → DB → Option DB) (l : List Name) :
    ∀ s : MigState Name DB, l.Nodup →
      (migrationLoop applySql s l).2 =
        l.filter (fun n => decide (n ∉ s.schema_migrations)) := by
  induction l with
  | nil => intro s _; rfl
  | cons n rest ih =>
    intro s hnd
    have hnr : n ∉ rest := (List.nodup_cons.mp hnd).1
    have hrest : rest.Nodup := (List.nodup_cons.mp hnd).2
    by_cases hn : n ∈ s.schema_migrations
    · rw [migrationLoop_skip applySql s n rest hn, ih s hrest]
      simp [hn]
    · show (migrationLoop applySql s (n :: rest)).2 = _
      rw [migrationLoop]
      simp only [if_neg hn]
      have hfc : rest.filter
            (fun m => decide (m ∉ (match applySql n s.db with
              | some db2 => (⟨db2, insertMigrationRow s.schema_migrations n⟩ :
                  MigState Name DB)
              | none => s).schema_migrations)) =
          rest.filter (fun m => decide (m ∉ s.schema_migrations)) := by
        refine List.filter_congr ?_
        intro m hm
        have hmn : m ≠ n := fun h => hnr (h ▸ hm)
        simp only [decide_eq_decide]
        constructor
        · intro hno hmem
          exact hno ((mem_applied_after_step applySql s n m hmn).mpr hmem)
        · intro hno hmem
          exact hno ((mem_applied_after_step applySql s n m hmn).mp hmem)
      rw [ih _ hrest, hfc]
      simp [hn]

/-- Helper: the loop preserves freedom from duplicate rows in
`schema_migrations`. -/
theorem migrationLoop_nodup {Name DB : Type} [DecidableEq Name]
    (applySql : Name → DB → Option DB) (l : List Name) :
    ∀ s : MigState Name DB, s.schema_migrations.Nodup →
      (migrationLoop applySql s l).1.schema_migrations.Nodup := by
  induction l with
  | nil => intro s hs; exact hs
  | cons n rest ih =>
    intro s hs
    by_cases hn : n ∈ s.schema_migrations
    · rw [migrationLoop_skip applySql s n rest hn]
      exact ih s hs
    · show ((migrationLoop applySql s (n :: rest)).1).schema_migrations.Nodup
      rw [migrationLoop]
      simp only [if_neg hn]
      apply ih
      cases happ : applySql n s.db with
      | none => exact hs
      | some db2 =>
        simp only [insertMigrationRow, if_neg hn]
        refine List.Nodup.append hs (List.nodup_singleton n) ?_
        intro a ha hb
        simp only [List.mem_singleton] at hb
        exact hn (hb ▸ ha)

/-- C4: the migration runner iterates the SQL files in sorted
(lexicographic) order, attempting exactly the not-yet-recorded ones in
that order; `schema_migrations` never holds two rows for one name; a
successful application appends exactly one row for the name, and a
failed `psql` application leaves the state untouched and unrecorded. -/
theorem migrations_sorted_order_and_recording {Name DB : Type}
    [LinearOrder Name] (applySql : Name → DB → Option DB)
    (files : List Name) (s : MigState Name DB) :
    List.Sorted (· ≤ ·) (sortedMigrationFiles files) ∧
    ((sortedMigrationFiles files).Nodup →
      (migrationLoop applySql s (sortedMigrationFiles files)).2 =
        (sortedMigrationFiles files).filter
          (fun n => decide (n ∉ s.schema_migrations))) ∧
    (s.schema_migrations.Nodup →
      (runMigrations applySql files s).schema_migrations.Nodup) ∧
    (∀ (st : MigState Name DB) (n : Name), n ∉ st.schema_migrations →
      (applySql n st.db = none → migrationLoop applySql st [n] = (st, [n])) ∧
      (∀ db2, applySql n st.db = some db2 →
        migrationLoop applySql st [n] =
          (⟨db2, st.schema_migrations ++ [n]⟩, [n]))) := by
  refine ⟨List.sorted_insertionSort _ files, ?_, ?_, ?_⟩
  · intro hnd
    exact migrationLoop_trace applySql _ s hnd
  · intro hs
    exact migrationLoop_nodup applySql _ s hs
  · intro st n hn
    constructor
    · intro hfail
      rw [migrationLoop]
      simp [if_neg hn, hfail, migrationLoop]
    · intro db2 hsucc
      rw [migrationLoop]
      simp [if_neg hn, hsucc, migrationLoop, insertMigrationRow]

/-- C4 witness: on files numbered 2 and 1 with an always-succeeding
`psql`, the runner attempts them in sorted order. -/
theorem migrations_sorted_order_witness :
    (migrationLoop (fun (n : ℕ) (db : List ℕ) => some (n :: db))
      (⟨[], []⟩ : MigState ℕ (List ℕ)) (sortedMigrationFiles [2, 1])).2
      = [1, 2] := by
  have h := (migrations_sorted_order_and_recording
    (fun (n : ℕ) (db : List ℕ) => some (n :: db)) [2, 1]
    (⟨[], []⟩ : MigState ℕ (List ℕ))).2.1 (by decide)
  exact h.trans (by decide)

/-- C2 counterexample: with two files 0 and 2 where file 0 only applies
once the effect of file 2 is in the database (the log message part_003 itself prints:
"возможно, таблица еще не создана — будет применена при следующем
запуске"), the first run applies only file 2 and the second run applies
file 0 as well, so running twice differs from running once. -/
theorem runMigrations_not_idempotent_counterexample :
    runMigrations (fun (n : ℕ) (db : List ℕ) =>
        if n = 0 then (if 2 ∈ db then some (0 :: db) else none)
        else some (n :: db)) [0, 2]
      (runMigrations (fun (n : ℕ) (db : List ℕ) =>
          if n = 0 then (if 2 ∈ db then some (0 :: db) else none)
          else some (n :: db)) [0, 2] ⟨[], []⟩) ≠
    runMigrations (fun (n : ℕ) (db : List ℕ) =>
        if n = 0 then (if 2 ∈ db then some (0 :: db) else none)
        else some (n :: db)) [0, 2] ⟨[], []⟩ := by decide

/-- C2 (amended): when a run records every migration file — in
particular whenever no `psql` application fails — running the runner N
times (N ≥ 1) leaves the database and `schema_migrations` exactly as
one run does; and a migration whose name is already recorded is skipped
as a no-op.  (Unconditionally the claim is false: a migration that
fails is retried by the next run, which can then change the state —
see the counterexample.) -/
theorem runMigrations_idempotent_amended {Name DB : Type} [LinearOrder Name]
    (applySql : Name → DB → Option DB) (files : List Name)
    (s : MigState Name DB)
    (hrec : ∀ n ∈ sortedMigrationFiles files,
      n ∈ (runMigrations applySql files s).schema_migrations) :
    (∀ N, 1 ≤ N →
      (fun st => runMigrations applySql files st)^[N] s =
        runMigrations applySql files s) ∧
    (∀ (st : MigState Name DB) (n : Name) (rest : List Name),
      n ∈ st.schema_migrations →
      migrationLoop applySql st (n :: rest) = migrationLoop applySql st rest) := by
  have hidem : runMigrations applySql files (runMigrations applySql files s) =
      runMigrations applySql files s := by
    show (migrationLoop applySql (runMigrations applySql files s)
      (sortedMigrationFiles files)).1 = _
    rw [migrationLoop_all_recorded applySql _ _ hrec]
  constructor
  · intro N hN
    induction N with
    | zero => omega
    | succ k ih =>
      rcases Nat.eq_or_lt_of_le hN with h1 | h2
      · rw [← h1]
        simp
      · have hk : 1 ≤ k := by omega
        rw [Function.iterate_succ_apply', ih hk, hidem]
  · intro st n rest h
    exact migrationLoop_skip applySql st n rest h

/-- C2 witness: with an always-succeeding `psql`, two runs on files 1
and 0 equal one run. -/
theorem runMigrations_idempotent_witness :
    (fun st => runMigrations (fun (n : ℕ) (db : List ℕ) => some (n :: db))
        [1, 0] st)^[2] ⟨[], []⟩ =
      runMigrations (fun (n : ℕ) (db : List ℕ) => some (n :: db))
        [1, 0] ⟨[], []⟩ :=
  (runMigrations_idempotent_amended
    (fun (n : ℕ) (db : List ℕ) => some (n :: db)) [1, 0] ⟨[], []⟩
    (by decide)).1 2 (by norm_num)

/-- Helper: the row-wise cast preserves the number of rows. -/
theorem castRows_length {J : Type} (parse : String → Option J) :
    ∀ (l l2 : List (FilterVal J)), castRows parse l = some l2 →
      l2.length = l.length := by
  intro l
  induction l with
  | nil =>
    intro l2 h
    simp [castRows] at h
    simp [← h]
  | cons v rest ih =>
    intro l2 h
    simp only [castRows] at h
    cases hv : castRow parse v with
    | none => rw [hv] at h; simp at h
    | some w =>
      rw [hv] at h
      cases hr : castRows parse rest with
      | none => rw [hr] at h; simp at h
      | some rest2 =>
        rw [hr] at h
        simp at h
        rw [← h]
        simp [ih rest2 hr]

/-- Helper: the row-wise cast acts index by index. -/
theorem castRows_get {J : Type} (parse : String → Option J) :
    ∀ (l l2 : List (FilterVal J)), castRows parse l = some l2 →
      ∀ i (hi : i < l.length) (hi2 : i < l2.length),
        castRow parse (l.get ⟨i, hi⟩) = some (l2.get ⟨i, hi2⟩) := by
  intro l
  induction l with
  | nil => intro l2 _ i hi; exact absurd hi (by simp)
  | cons v rest ih =>
    intro l2 h i hi hi2
    simp only [castRows] at h
    cases hv : castRow parse v with
    | none => rw [hv] at h; simp at h
    | some w =>
      rw [hv] at h
      cases hr : castRows parse rest with
      | none => rw [hr] at h; simp at h
      | some rest2 =>
        rw [hr] at h
        simp at h
        subst h
        cases i with
        | zero => simpa using hv
        | succ k =>
          have hk : k < rest.length := by simpa using hi
          have hk2 : k < rest2.length := by simpa using hi2
          simpa using ih rest2 hr k hk hk2

/-- C6: on a table whose `filters_json` column is not yet JSONB, a
successful run of the filters migration makes the column JSONB and NOT
NULL, preserves every pre-existing non-null text value by casting it,
and adds the GIN document index plus the two btree expression indexes;
on a table whose column is already JSONB it changes nothing, as it does
on a database without the table. -/
theorem migration001_spec {J : Type} (parse : String → Option J)
    (t t2 : TasksTable J) :
    (t.filtersIsJsonb = true → migration001 parse t = some t) ∧
    (migration001OnDatabase parse (none : Option (TasksTable J)) = some none) ∧
    (t.filtersIsJsonb = false → migration001 parse t = some t2 →
      t2.filtersIsJsonb = true ∧ t2.filtersNotNull = true ∧
      t2.rows.length = t.rows.length ∧
      (∀ i (hi : i < t.rows.length) (hi2 : i < t2.rows.length) s j,
        t.rows.get ⟨i, hi⟩ = .txt (some s) → parse s = some j →
        t2.rows.get ⟨i, hi2⟩ = .jsb (some j)) ∧
      t2.indexes = t.indexes ++
        [ginIndexName, maxPriceIndexName, itemTypeIndexName]) := by
  refine ⟨?_, rfl, ?_⟩
  · intro h
    simp [migration001, h]
  · intro h hm
    simp only [migration001, h, Bool.false_eq_true, if_false] at hm
    cases hc : castRows parse t.rows with
    | none => rw [hc] at hm; simp at hm
    | some newRows =>
      simp only [hc] at hm
      by_cases hall : newRows.all rowNotNull
      · rw [if_pos hall] at hm
        injection hm with hm
        subst hm
        refine ⟨rfl, rfl, castRows_length parse _ _ hc, ?_, rfl⟩
        intro i hi hi2 s j hrow hparse
        have hg := castRows_get parse _ _ hc i hi hi2
        rw [hrow] at hg
        simp [castRow, hparse] at hg
        exact hg.symm
      · rw [if_neg hall] at hm
        simp at hm

/-- C6 witness: a one-row text table with a castable document migrates
to a JSONB NOT NULL column carrying the cast value and the three
indexes. -/
theorem migration001_spec_witness :
    ((⟨true, true, [FilterVal.jsb (some "x")],
        [ginIndexName, maxPriceIndexName, itemTypeIndexName]⟩ :
      TasksTable String)).filtersNotNull = true :=
  ((migration001_spec (fun s => some s)
      ⟨false, false, [FilterVal.txt (some "x")], []⟩
      ⟨true, true, [FilterVal.jsb (some "x")],
        [ginIndexName, maxPriceIndexName, itemTypeIndexName]⟩).2.2
    rfl (by decide)).2.1

end SteamParser
